import Mathlib

/-!
Shallow embedding of the Live-Auction-Server core: the multi-item auction
engine (`src/auction/engine/auction-engine.ts`), the Redis arbiter
(`redis.service.ts`), the timer scheduling and the coordinator-level
`placeBid` / `extendItem` of `AuctionService` (`auction.service.ts`), and the
JSON snapshot round-trip used by `getState` / `setState`.

Numbers are modelled as `Int` (all amounts and durations in the source are
JS integers in every code path the claims touch); Redis key/value state is
modelled as association lists keyed by the full Redis key strings that the
source builds.
-/

namespace LiveAuction

/-- `AuctionStatus` from `engine/types.ts`: CREATED → LIVE → ENDED. -/
inductive AuctionStatus where
  | CREATED
  | LIVE
  | ENDED
deriving DecidableEq, Repr

/-- `ItemStatus` from `engine/types.ts`: PENDING → LIVE → SOLD | UNSOLD. -/
inductive ItemStatus where
  | PENDING
  | LIVE
  | SOLD
  | UNSOLD
deriving DecidableEq, Repr

/-- `AuctionItem` from `engine/types.ts`. -/
structure AuctionItem where
  id : String
  name : String
  startingPrice : Int
  durationSec : Int
  extraDurationSec : Int
  status : ItemStatus
  highestBid : Int
  highestBidderId : Option String
  extended : Bool
deriving DecidableEq, Repr

/-- `AuctionState` from `engine/types.ts` (multi-item engine). -/
structure AuctionState where
  id : String
  sellerId : String
  status : AuctionStatus
  items : List AuctionItem
  currentItemIndex : Nat
  maxDurationSec : Int
deriving DecidableEq, Repr

/-- `CreateAuctionItemInput` from `engine/types.ts`. -/
structure CreateAuctionItemInput where
  name : String
  startingPrice : Int
  durationSec : Option Int
deriving DecidableEq, Repr

/-- `CreateAuctionInput` from `engine/types.ts`. -/
structure CreateAuctionInput where
  sellerId : String
  items : List CreateAuctionItemInput
deriving DecidableEq, Repr

def DEFAULT_ITEM_DURATION_SEC : Int := 60

def DEFAULT_EXTRA_DURATION_SEC : Int := 15

def DEFAULT_MAX_AUCTION_DURATION_SEC : Int := 300

/-- `generateItemId` from `auction-engine.ts`. -/
def generateItemId (auctionId : String) (index : Nat) : String :=
  auctionId ++ "-item-" ++ toString index

def statusText : AuctionStatus → String
  | .CREATED => "CREATED"
  | .LIVE => "LIVE"
  | .ENDED => "ENDED"

def itemStatusText : ItemStatus → String
  | .PENDING => "PENDING"
  | .LIVE => "LIVE"
  | .SOLD => "SOLD"
  | .UNSOLD => "UNSOLD"

/-- The `AuctionEngine` constructor: builds the initial state. -/
def mkEngineState (auctionId : String) (input : CreateAuctionInput) : AuctionState :=
  { id := auctionId
    sellerId := input.sellerId
    status := .CREATED
    items := input.items.enum.map (fun p =>
      { id := generateItemId auctionId p.1
        name := p.2.name
        startingPrice := p.2.startingPrice
        durationSec := p.2.durationSec.getD DEFAULT_ITEM_DURATION_SEC
        extraDurationSec := DEFAULT_EXTRA_DURATION_SEC
        status := .PENDING
        highestBid := p.2.startingPrice
        highestBidderId := none
        extended := false })
    currentItemIndex := 0
    maxDurationSec := DEFAULT_MAX_AUCTION_DURATION_SEC }

/-- `getCurrentItem` from `auction-engine.ts`: `items[currentItemIndex] ?? null`. -/
def AuctionState.currentItem (s : AuctionState) : Option AuctionItem :=
  s.items[s.currentItemIndex]?

/-- In-place field update of `items[i]` (TS mutates `items[idx]!` when present). -/
def setItemAt (items : List AuctionItem) (i : Nat) (f : AuctionItem → AuctionItem) :
    List AuctionItem :=
  match items[i]? with
  | none => items
  | some item => items.set i (f item)

/-- `StartAuctionResult` from `engine/types.ts`. -/
inductive StartAuctionResult where
  | started
  | startFailed (reason : String)
deriving DecidableEq, Repr

/-- `PlaceBidResult` from `engine/types.ts`. -/
inductive PlaceBidResult where
  | accepted
  | bidRejected (reason : String)
deriving DecidableEq, Repr

/-- `EndCurrentItemResult` from `engine/types.ts`. -/
inductive EndCurrentItemResult where
  | itemEnded (itemId : String) (winnerId : Option String) (finalPrice : Int) (hadBids : Bool)
  | endItemFailed (reason : String)
deriving DecidableEq, Repr

/-- `AdvanceToNextItemResult` from `engine/types.ts`. -/
inductive AdvanceToNextItemResult where
  | advanced (nextItemLive : Bool)
  | advanceFailed (reason : String)
deriving DecidableEq, Repr

/-- `ExtendCurrentItemResult` from `engine/types.ts`. -/
inductive ExtendCurrentItemResult where
  | extendedOk
  | extendFailed (reason : String)
deriving DecidableEq, Repr

/-- One row of the `endAuction` summary. -/
structure ItemResultRow where
  itemId : String
  winnerId : Option String
  finalPrice : Int
deriving DecidableEq, Repr

/-- `EndAuctionResult` from `engine/types.ts` (multi-item engine). -/
inductive EndAuctionResult where
  | auctionEnded (results : List ItemResultRow)
  | endAuctionFailed (reason : String)
deriving DecidableEq, Repr

/-- `AuctionEngine.startAuction`: CREATED → LIVE; first item goes LIVE. -/
def startAuction (s : AuctionState) : StartAuctionResult × AuctionState :=
  if s.status ≠ .CREATED then
    (.startFailed ("Auction cannot start from status " ++ statusText s.status), s)
  else if s.items.length = 0 then
    (.startFailed "Auction has no items", s)
  else
    (.started,
      { s with
        status := .LIVE
        items := setItemAt s.items 0 (fun item0 =>
          { item0 with status := .LIVE, highestBid := item0.startingPrice }) })

/-- `AuctionEngine.placeBid`: bid on the current LIVE item. -/
def placeBid (s : AuctionState) (userId : String) (amount : Int) :
    PlaceBidResult × AuctionState :=
  if s.status ≠ .LIVE then
    (.bidRejected ("Auction is not live (status: " ++ statusText s.status ++ ")"), s)
  else
    match s.currentItem with
    | none => (.bidRejected "No item currently being auctioned", s)
    | some item =>
      if item.status ≠ .LIVE then
        (.bidRejected "No item currently being auctioned", s)
      else if amount ≤ item.highestBid then
        (.bidRejected ("Bid must be higher than current highest ("
          ++ toString item.highestBid ++ ")"), s)
      else
        (.accepted,
          { s with
            items := s.items.set s.currentItemIndex
              { item with highestBid := amount, highestBidderId := some userId } })

/-- `AuctionEngine.endCurrentItem`: mark the current item SOLD or UNSOLD. -/
def endCurrentItem (s : AuctionState) : EndCurrentItemResult × AuctionState :=
  if s.status ≠ .LIVE then
    (.endItemFailed ("Auction is not live (status: " ++ statusText s.status ++ ")"), s)
  else
    match s.currentItem with
    | none => (.endItemFailed "No item currently live", s)
    | some item =>
      if item.status ≠ .LIVE then
        (.endItemFailed "No item currently live", s)
      else
        let hadBids := item.highestBidderId.isSome
          && decide (item.highestBid > item.startingPrice)
        (.itemEnded item.id item.highestBidderId item.highestBid hadBids,
          { s with
            items := s.items.set s.currentItemIndex
              { item with status := if hadBids then .SOLD else .UNSOLD } })

/-- `AuctionEngine.advanceToNextItem`: next item LIVE, or ENDED if none left. -/
def advanceToNextItem (s : AuctionState) : AdvanceToNextItemResult × AuctionState :=
  if s.status ≠ .LIVE then
    (.advanceFailed ("Auction is not live (status: " ++ statusText s.status ++ ")"), s)
  else
    let nextIndex := s.currentItemIndex + 1
    if nextIndex ≥ s.items.length then
      (.advanced false, { s with status := .ENDED })
    else
      (.advanced true,
        { s with
          currentItemIndex := nextIndex
          items := setItemAt s.items nextIndex (fun next =>
            { next with status := .LIVE, highestBid := next.startingPrice }) })

/-- `AuctionEngine.extendCurrentItem`: add extra time once per item. -/
def extendCurrentItem (s : AuctionState) : ExtendCurrentItemResult × AuctionState :=
  if s.status ≠ .LIVE then
    (.extendFailed ("Auction is not live (status: " ++ statusText s.status ++ ")"), s)
  else
    match s.currentItem with
    | none => (.extendFailed "No item currently live", s)
    | some item =>
      if item.status ≠ .LIVE then
        (.extendFailed "No item currently live", s)
      else if item.extended then
        (.extendFailed "Item already extended", s)
      else
        (.extendedOk,
          { s with
            items := s.items.set s.currentItemIndex { item with extended := true } })

/-- `AuctionEngine.endAuction`: full auction end with per-item summary. -/
def endAuction (s : AuctionState) : EndAuctionResult × AuctionState :=
  if s.status = .ENDED then
    (.auctionEnded (s.items.map (fun i =>
      { itemId := i.id, winnerId := i.highestBidderId, finalPrice := i.highestBid })), s)
  else
    (.auctionEnded (s.items.map (fun i =>
      { itemId := i.id
        winnerId := if i.status = .SOLD then i.highestBidderId else none
        finalPrice := i.highestBid })),
      { s with status := .ENDED })

/-! ## Redis arbiter (`redis.service.ts`)

Redis key-value state is modelled as association lists keyed by the full key
strings the source builds; `kvSet` is Redis `SET` (overwrite), `kvDel` is
`DEL`, `kvGet` is `GET`. -/

def kvGet {α : Type} : List (String × α) → String → Option α
  | [], _ => none
  | (k, v) :: rest, key => if k = key then some v else kvGet rest key

def kvDel {α : Type} : List (String × α) → String → List (String × α)
  | [], _ => []
  | (k0, v0) :: rest, k =>
    if k0 = k then kvDel rest k else (k0, v0) :: kvDel rest k

def kvSet {α : Type} (l : List (String × α)) (k : String) (v : α) : List (String × α) :=
  (k, v) :: kvDel l k

/-- `RedisService.bidKey`. -/
def bidKey (auctionId itemId : String) : String :=
  "auction:" ++ auctionId ++ ":item:" ++ itemId ++ ":highest_bid"

/-- `RedisService.bidderKey`. -/
def bidderKey (auctionId itemId : String) : String :=
  "auction:" ++ auctionId ++ ":item:" ++ itemId ++ ":highest_bidder"

/-- `RedisService.bidIdempotencyPendingKey`. -/
def bidIdemPendingKey (auctionId itemId bidderId idempotencyKey : String) : String :=
  "auction:" ++ auctionId ++ ":item:" ++ itemId ++ ":bidder:" ++ bidderId
    ++ ":idem:" ++ idempotencyKey ++ ":pending"

/-- `RedisService.bidIdempotencyResultKey`. -/
def bidIdemResultKey (auctionId itemId bidderId idempotencyKey : String) : String :=
  "auction:" ++ auctionId ++ ":item:" ++ itemId ++ ":bidder:" ++ bidderId
    ++ ":idem:" ++ idempotencyKey ++ ":result"

/-- The arbiter's key-value state: `highest_bid` keys hold numbers,
`highest_bidder` keys hold user ids (two maps over the same key strings the
source writes). -/
structure ArbiterState where
  bids : List (String × Int)
  bidders : List (String × String)
deriving DecidableEq, Repr

/-- `ATOMIC_BID_SCRIPT` + `RedisService.atomicBidCheck`: atomically, if the
`highest_bid` key is absent or the new amount is strictly greater, write both
keys and return `true`; else return `false` and change nothing. -/
def atomicBidCheck (arb : ArbiterState) (auctionId itemId : String) (newBid : Int)
    (bidderId : String) : Bool × ArbiterState :=
  let k1 := bidKey auctionId itemId
  let k2 := bidderKey auctionId itemId
  match kvGet arb.bids k1 with
  | none =>
    (true, { bids := kvSet arb.bids k1 newBid, bidders := kvSet arb.bidders k2 bidderId })
  | some currentBid =>
    if newBid > currentBid then
      (true, { bids := kvSet arb.bids k1 newBid, bidders := kvSet arb.bidders k2 bidderId })
    else
      (false, arb)

/-- `RedisService.seedItem`: set `highest_bid := startingPrice`, delete the
`highest_bidder` key. -/
def seedItem (arb : ArbiterState) (auctionId itemId : String) (startingPrice : Int) :
    ArbiterState :=
  { bids := kvSet arb.bids (bidKey auctionId itemId) startingPrice
    bidders := kvDel arb.bidders (bidderKey auctionId itemId) }

/-- The `{accepted, reason?}` bid outcome value (`BidOutcome` in
`auction.service.ts`). -/
structure BidOutcome where
  accepted : Bool
  reason : Option String
deriving DecidableEq, Repr

/-! ## Timer scheduling (`AuctionService.scheduleItemExpiry`, Redis-backed
service) -/

/-- The timer fields of an `AuctionEntry`: whether a single-shot timer is
armed, and the absolute end time it was armed for. -/
structure TimerEntry where
  itemTimer : Bool
  itemEndTimeMs : Option Int
deriving DecidableEq, Repr

/-- `AuctionService.scheduleItemExpiry` (Redis-backed service): clears any
armed timer; returns early unless the auction and current item are LIVE;
when re-scheduling an already-running timer for an extended item, the new
duration is `max(0, previousEndTime − now) + extraDurationSec·1000`,
otherwise it is the full `durationSec·1000` plus the extension when
`extended`. -/
def scheduleItemExpiry (entry : TimerEntry) (state : AuctionState) (now : Int) :
    TimerEntry :=
  let hadActiveTimer := entry.itemTimer
  let previousEndTimeMs := entry.itemEndTimeMs
  let cleared : TimerEntry := { itemTimer := false, itemEndTimeMs := entry.itemEndTimeMs }
  if state.status ≠ .LIVE then cleared
  else
    match state.currentItem with
    | none => cleared
    | some item =>
      if item.status ≠ .LIVE then cleared
      else
        let baseDurationMs := item.durationSec * 1000
        let extensionMs := if item.extended then item.extraDurationSec * 1000 else 0
        let durationMs :=
          match previousEndTimeMs with
          | some prevEnd =>
            if hadActiveTimer && item.extended then
              max 0 (prevEnd - now) + item.extraDurationSec * 1000
            else baseDurationMs + extensionMs
          | none => baseDurationMs + extensionMs
        { itemTimer := true, itemEndTimeMs := some (now + durationMs) }

/-- One `AuctionEntry` of the service: the engine state plus timer fields. -/
structure ServiceEntry where
  engine : AuctionState
  timer : TimerEntry
deriving DecidableEq, Repr

/-- `AuctionService.extendItem` (Redis-backed service): seller check, engine
`extendCurrentItem`, then `scheduleItemExpiry` (persistence and event
emission carry no engine/timer state and are omitted). -/
def extendItem (entry : ServiceEntry) (sellerId : String) (now : Int) :
    ExtendCurrentItemResult × ServiceEntry :=
  if entry.engine.sellerId ≠ sellerId then
    (.extendFailed "Not the seller", entry)
  else
    match extendCurrentItem entry.engine with
    | (.extendFailed reason, engine1) => (.extendFailed reason, { entry with engine := engine1 })
    | (.extendedOk, engine1) =>
      (.extendedOk, { engine := engine1, timer := scheduleItemExpiry entry.timer engine1 now })

/-! ## Coordinator `placeBid` (`AuctionService.placeBid`, Redis-backed
service)

Sequential semantics of one auction's coordinator: the engine state, the
arbiter state, the idempotency result/pending keys and the persisted bid
rows. The bounded poll of `waitForBidIdempotencyResult` collapses, under
sequential execution, to one read of the result key. -/

/-- One persisted `Bid` row (`AuctionPersistenceService.persistBid`). -/
structure PersistedBid where
  auctionId : String
  itemId : String
  bidderId : String
  amount : Int
deriving DecidableEq, Repr

structure CoordState where
  engine : AuctionState
  arb : ArbiterState
  idemResults : List (String × BidOutcome)
  idemPending : List (String × String)
  bids : List PersistedBid
deriving DecidableEq, Repr

/-- JS `String.prototype.trim`: strip whitespace from both ends. -/
def jsTrim (s : String) : String :=
  String.mk (((s.data.dropWhile Char.isWhitespace).reverse.dropWhile
    Char.isWhitespace).reverse)

/-- JS `String.prototype.slice(0, n)`: the first `n` characters. -/
def jsSlice (s : String) (n : Nat) : String :=
  String.mk (s.data.take n)

/-- `idempotencyKey?.trim().slice(0, 128) || null` (empty string is falsy). -/
def normalizeIdemKey : Option String → Option String
  | none => none
  | some k =>
    let t := jsSlice (jsTrim k) 128
    if t = "" then none else some t

/-- The tail of `AuctionService.placeBid` after the idempotency protocol:
bid-too-low check, arbiter check-and-set, engine commit, bid persistence,
and `finalize` (store outcome, clear pending) when a key is in play. -/
def bidCore (c : CoordState) (keys : Option (String × String)) (currentItem : AuctionItem)
    (userId : String) (amount : Int) (auctionId : String) : BidOutcome × CoordState :=
  let finalize := fun (c1 : CoordState) (res : BidOutcome) =>
    match keys with
    | none => (res, c1)
    | some (rKey, pKey) =>
      (res, { c1 with
        idemResults := kvSet c1.idemResults rKey res
        idemPending := kvDel c1.idemPending pKey })
  if amount ≤ currentItem.highestBid then
    finalize c { accepted := false,
                 reason := some ("Bid must be higher than current highest ("
                   ++ toString currentItem.highestBid ++ ")") }
  else
    match atomicBidCheck c.arb auctionId currentItem.id amount userId with
    | (false, arb1) =>
      finalize { c with arb := arb1 }
        { accepted := false, reason := some "Bid was outpaced by another bidder" }
    | (true, arb1) =>
      let engine1 := (placeBid c.engine userId amount).2
      finalize
        { c with
          arb := arb1
          engine := engine1
          bids := c.bids ++ [{ auctionId := auctionId, itemId := currentItem.id,
                               bidderId := userId, amount := amount }] }
        { accepted := true, reason := none }

/-- `AuctionService.placeBid` (Redis-backed service), sequential semantics:
engine admissibility checks, idempotency protocol (stored outcome returned
verbatim; claim-or-wait), then `bidCore`. -/
def svcPlaceBid (c : CoordState) (userId : String) (amount : Int)
    (idempotencyKey : Option String) : BidOutcome × CoordState :=
  let state := c.engine
  if state.status ≠ .LIVE then
    ({ accepted := false,
       reason := some ("Auction is not live (status: " ++ statusText state.status ++ ")") }, c)
  else
    match state.currentItem with
    | none => ({ accepted := false, reason := some "No item currently being auctioned" }, c)
    | some currentItem =>
      if currentItem.status ≠ .LIVE then
        ({ accepted := false, reason := some "No item currently being auctioned" }, c)
      else
        match normalizeIdemKey idempotencyKey with
        | none => bidCore c none currentItem userId amount state.id
        | some nk =>
          let rKey := bidIdemResultKey state.id currentItem.id userId nk
          let pKey := bidIdemPendingKey state.id currentItem.id userId nk
          match kvGet c.idemResults rKey with
          | some existing => (existing, c)
          | none =>
            if (kvGet c.idemPending pKey).isSome then
              match kvGet c.idemResults rKey with
              | some settled => (settled, c)
              | none => ({ accepted := false, reason := some "Duplicate bid in progress" }, c)
            else
              bidCore { c with idemPending := kvSet c.idemPending pKey "1" }
                (some (rKey, pKey)) currentItem userId amount state.id

/-! ## Coordinator item-expiry step and reachability

`AuctionService.onItemTimerExpired` runs, under the per-auction lock,
`endCurrentItem`; on success `advanceToNextItem`; and when that ends the
auction, `endAuction`. -/

/-- The engine-state effect of `AuctionService.onItemTimerExpired`. -/
def expireStep (s : AuctionState) : AuctionState :=
  match endCurrentItem s with
  | (.endItemFailed _, s1) => s1
  | (.itemEnded _ _ _ _, s1) =>
    match advanceToNextItem s1 with
    | (.advanceFailed _, s2) => s2
    | (.advanced _, s2) =>
      if s2.status = .ENDED then (endAuction s2).2 else s2

/-- Engine states reachable from a freshly created auction by the
coordinator-level operations of `AuctionService`: `startAuction`, `placeBid`
(engine commit), `extendItem` (engine `extendCurrentItem`), and the timer
expiry step. -/
inductive CoordReachable (auctionId : String) (input : CreateAuctionInput) :
    AuctionState → Prop where
  | init : CoordReachable auctionId input (mkEngineState auctionId input)
  | start {s} : CoordReachable auctionId input s →
      CoordReachable auctionId input (startAuction s).2
  | bid {s} (userId : String) (amount : Int) : CoordReachable auctionId input s →
      CoordReachable auctionId input (placeBid s userId amount).2
  | extend {s} : CoordReachable auctionId input s →
      CoordReachable auctionId input (extendCurrentItem s).2
  | expire {s} : CoordReachable auctionId input s →
      CoordReachable auctionId input (expireStep s)

/-! ## JSON snapshot round-trip (`getState` / `setState`)

The multi-item engine's `getState` and `setState` deep-copy via
`JSON.parse(JSON.stringify(state))`. We model the JSON value an
`AuctionState` serializes to and the parse back from it. -/

/-- JSON values (the subset `JSON.stringify` produces for `AuctionState`). -/
inductive Json where
  | jnull
  | jbool (b : Bool)
  | jnum (n : Int)
  | jstr (s : String)
  | jarr (xs : List Json)
  | jobj (fields : List (String × Json))

def Json.getField : Json → String → Option Json
  | .jobj fields, k => kvGet fields k
  | _, _ => none

def jsonToStr : Json → Option String
  | .jstr s => some s
  | _ => none

def jsonToNum : Json → Option Int
  | .jnum n => some n
  | _ => none

def jsonToBool : Json → Option Bool
  | .jbool b => some b
  | _ => none

def jsonToOptStr : Json → Option (Option String)
  | .jnull => some none
  | .jstr s => some (some s)
  | _ => none

def optStrToJson : Option String → Json
  | none => .jnull
  | some s => .jstr s

def parseItemStatus : String → Option ItemStatus
  | "PENDING" => some .PENDING
  | "LIVE" => some .LIVE
  | "SOLD" => some .SOLD
  | "UNSOLD" => some .UNSOLD
  | _ => none

def parseAuctionStatus : String → Option AuctionStatus
  | "CREATED" => some .CREATED
  | "LIVE" => some .LIVE
  | "ENDED" => some .ENDED
  | _ => none

/-- `JSON.stringify` of one `AuctionItem`. -/
def itemToJson (it : AuctionItem) : Json :=
  .jobj [("id", .jstr it.id), ("name", .jstr it.name),
    ("startingPrice", .jnum it.startingPrice), ("durationSec", .jnum it.durationSec),
    ("extraDurationSec", .jnum it.extraDurationSec),
    ("status", .jstr (itemStatusText it.status)), ("highestBid", .jnum it.highestBid),
    ("highestBidderId", optStrToJson it.highestBidderId), ("extended", .jbool it.extended)]

/-- `JSON.parse` of one `AuctionItem`. -/
def itemOfJson (j : Json) : Option AuctionItem := do
  let id ← (j.getField "id").bind jsonToStr
  let name ← (j.getField "name").bind jsonToStr
  let startingPrice ← (j.getField "startingPrice").bind jsonToNum
  let durationSec ← (j.getField "durationSec").bind jsonToNum
  let extraDurationSec ← (j.getField "extraDurationSec").bind jsonToNum
  let status ← ((j.getField "status").bind jsonToStr).bind parseItemStatus
  let highestBid ← (j.getField "highestBid").bind jsonToNum
  let highestBidderId ← (j.getField "highestBidderId").bind jsonToOptStr
  let extended ← (j.getField "extended").bind jsonToBool
  pure { id := id, name := name, startingPrice := startingPrice,
         durationSec := durationSec, extraDurationSec := extraDurationSec,
         status := status, highestBid := highestBid,
         highestBidderId := highestBidderId, extended := extended }

def decodeItems : List Json → Option (List AuctionItem)
  | [] => some []
  | j :: rest => do
    let it ← itemOfJson j
    let tail ← decodeItems rest
    pure (it :: tail)

/-- `JSON.stringify` of an `AuctionState`. -/
def stateToJson (s : AuctionState) : Json :=
  .jobj [("id", .jstr s.id), ("sellerId", .jstr s.sellerId),
    ("status", .jstr (statusText s.status)), ("items", .jarr (s.items.map itemToJson)),
    ("currentItemIndex", .jnum (s.currentItemIndex : Int)),
    ("maxDurationSec", .jnum s.maxDurationSec)]

/-- `JSON.parse` of an `AuctionState`. -/
def stateOfJson (j : Json) : Option AuctionState := do
  let id ← (j.getField "id").bind jsonToStr
  let sellerId ← (j.getField "sellerId").bind jsonToStr
  let status ← ((j.getField "status").bind jsonToStr).bind parseAuctionStatus
  let items ← match j.getField "items" with
    | some (.jarr xs) => decodeItems xs
    | _ => none
  let currentItemIndex ← (j.getField "currentItemIndex").bind jsonToNum
  let maxDurationSec ← (j.getField "maxDurationSec").bind jsonToNum
  pure { id := id, sellerId := sellerId, status := status, items := items,
         currentItemIndex := currentItemIndex.toNat, maxDurationSec := maxDurationSec }

/-- `AuctionEngine.getState`: `JSON.parse(JSON.stringify(this.state))`. -/
def engineGetState (s : AuctionState) : Option AuctionState :=
  stateOfJson (stateToJson s)

/-- `AuctionEngine.setState`: replaces the internal state with
`JSON.parse(JSON.stringify(incoming))`; the prior internal state is
discarded. -/
def engineSetState (_internal : AuctionState) (incoming : AuctionState) :
    Option AuctionState :=
  stateOfJson (stateToJson incoming)

/-! ## Concrete sample states (for witnesses and counterexamples) -/

def sampleInput : CreateAuctionInput :=
  { sellerId := "s"
    items := [{ name := "x", startingPrice := 100, durationSec := none }] }

def sample0 : AuctionState := mkEngineState "a" sampleInput

def sample1 : AuctionState := (startAuction sample0).2

def sample2 : AuctionState := (placeBid sample1 "u" 150).2

def sampleItem1 : AuctionItem :=
  { id := "a-item-0", name := "x", startingPrice := 100, durationSec := 60,
    extraDurationSec := 15, status := .LIVE, highestBid := 100,
    highestBidderId := none, extended := false }

def sampleItem2 : AuctionItem :=
  { sampleItem1 with highestBid := 150, highestBidderId := some "u" }

def sample3 : AuctionState := (endAuction sample2).2

def sampleEntry : ServiceEntry :=
  { engine := sample1, timer := { itemTimer := true, itemEndTimeMs := some 60000 } }

def sampleCoord : CoordState :=
  { engine := sample1
    arb := seedItem { bids := [], bidders := [] } "a" "a-item-0" 100
    idemResults := []
    idemPending := []
    bids := [] }

/-! ## Abbreviations for the item updates the engine performs -/

/-- The update `startAuction`/`advanceToNextItem` apply to the item that goes
LIVE. -/
def itemGoLive (it : AuctionItem) : AuctionItem :=
  { it with status := .LIVE, highestBid := it.startingPrice }

/-- The update an accepted `placeBid` applies to the current item. -/
def itemAfterBid (it : AuctionItem) (u : String) (a : Int) : AuctionItem :=
  { it with highestBid := a, highestBidderId := some u }

/-- The update `endCurrentItem` applies to the current item. -/
def itemClosed (it : AuctionItem) : AuctionItem :=
  { it with status := if it.highestBidderId.isSome
      && decide (it.highestBid > it.startingPrice) then ItemStatus.SOLD
    else ItemStatus.UNSOLD }

/-! ## Invariants (as definitions) -/

/-- The per-status item invariant: while CREATED, the index is 0 and every
item is PENDING; while LIVE, the index is in range and an item is LIVE
exactly when it sits at `currentItemIndex`. -/
def liveInvariant (s : AuctionState) : Prop :=
  (s.status = .CREATED → s.currentItemIndex = 0 ∧
    ∀ j : Nat, ∀ it : AuctionItem, s.items[j]? = some it → it.status = .PENDING) ∧
  (s.status = .LIVE → s.currentItemIndex < s.items.length ∧
    ∀ j : Nat, ∀ it : AuctionItem, s.items[j]? = some it →
      (it.status = .LIVE ↔ j = s.currentItemIndex))

/-- Strict amount-monotonicity per item of the persisted bid log, as a
computable check: each bid is below every later bid on the same item. -/
def bidsMonotoneB : List PersistedBid → Bool
  | [] => true
  | b :: rest =>
    (rest.all fun b2 =>
      !(decide (b.auctionId = b2.auctionId ∧ b.itemId = b2.itemId))
        || decide (b.amount < b2.amount)) && bidsMonotoneB rest

/-- Every persisted bid is covered by the arbiter: the `highest_bid` key of
its item is present and at least the bid's amount. -/
def bidCoveredB (arb : ArbiterState) (b : PersistedBid) : Bool :=
  match kvGet arb.bids (bidKey b.auctionId b.itemId) with
  | some v => decide (b.amount ≤ v)
  | none => false

/-- The coordinator invariant tying the bid log to the arbiter. -/
def coordInv (c : CoordState) : Prop :=
  (∀ b ∈ c.bids, bidCoveredB c.arb b = true) ∧ bidsMonotoneB c.bids = true

/-- Run a sequence of `placeBid` calls (user, amount, idempotency key). -/
def runBids (c : CoordState) : List (String × Int × Option String) → CoordState
  | [] => c
  | (u, a, k) :: rest => runBids (svcPlaceBid c u a k).2 rest

/-! ## Helper lemmas -/

theorem kvGet_del_ne {α : Type} (l : List (String × α)) {k k' : String} (h : k' ≠ k) :
    kvGet (kvDel l k) k' = kvGet l k' := by
  induction l with
  | nil => rfl
  | cons p rest ih =>
    obtain ⟨k0, v0⟩ := p
    have h2 : k ≠ k' := fun hh => h hh.symm
    by_cases h0 : k0 = k
    · have h1 : k0 ≠ k' := by
        rw [h0]
        exact h2
      simp [kvDel, kvGet, h0, h1, h2, ih]
    · by_cases h1 : k0 = k'
      · simp [kvDel, kvGet, h0, h1, h, ih]
      · simp [kvDel, kvGet, h0, h1, ih]

theorem kvGet_set_self {α : Type} (l : List (String × α)) (k : String) (v : α) :
    kvGet (kvSet l k v) k = some v := by
  simp [kvSet, kvGet]

theorem kvGet_set_ne {α : Type} (l : List (String × α)) {k k' : String} (v : α)
    (h : k' ≠ k) : kvGet (kvSet l k v) k' = kvGet l k' := by
  simp only [kvSet, kvGet]
  rw [if_neg (fun hk => h hk.symm), kvGet_del_ne l h]

theorem kvDel_of_get_none {α : Type} (l : List (String × α)) (k : String)
    (h : kvGet l k = none) : kvDel l k = l := by
  induction l with
  | nil => rfl
  | cons p rest ih =>
    obtain ⟨k0, v0⟩ := p
    simp only [kvGet] at h
    by_cases h0 : k0 = k
    · simp [h0] at h
    · simp only [h0, if_false] at h
      simp [kvDel, h0, ih h]

/-! ## C3: the arbiter's atomic bid check-and-set -/

/-- C3: `atomicBidCheck` accepts exactly when the `highest_bid` key is absent
or the new amount is strictly greater than the stored value; on acceptance it
writes both keys; on rejection (including equal amounts) the state is
unchanged; and after an accepted bid of some amount, a second bid of the same
amount by anyone is rejected with the state unchanged, so of two equal-amount
bids the first to reach the arbiter wins. -/
theorem atomicBidCheck_spec (arb : ArbiterState) (aid iid : String) (amt : Int)
    (bidder : String) :
    ((atomicBidCheck arb aid iid amt bidder).1 = true ↔
      (kvGet arb.bids (bidKey aid iid) = none ∨
        ∃ c, kvGet arb.bids (bidKey aid iid) = some c ∧ amt > c)) ∧
    ((atomicBidCheck arb aid iid amt bidder).1 = true →
      kvGet (atomicBidCheck arb aid iid amt bidder).2.bids (bidKey aid iid) = some amt ∧
      kvGet (atomicBidCheck arb aid iid amt bidder).2.bidders (bidderKey aid iid)
        = some bidder) ∧
    ((atomicBidCheck arb aid iid amt bidder).1 = false →
      (atomicBidCheck arb aid iid amt bidder).2 = arb) ∧
    ((atomicBidCheck arb aid iid amt bidder).1 = true → ∀ bidder2 : String,
      atomicBidCheck (atomicBidCheck arb aid iid amt bidder).2 aid iid amt bidder2 =
        (false, (atomicBidCheck arb aid iid amt bidder).2)) := by
  refine ⟨?_, ?_, ?_, ?_⟩ <;>
    · unfold atomicBidCheck
      cases h : kvGet arb.bids (bidKey aid iid) with
      | none =>
        simp [h, kvGet_set_self]
      | some c =>
        by_cases hgt : amt > c <;>
          simp only [h, hgt, kvGet_set_self, if_true, if_false, reduceIte] <;>
          simp [kvGet_set_self] <;>
          omega

/-- Witness for C3 at a concrete input: an empty arbiter accepts a first bid
of 5 and records bid and bidder. -/
theorem atomicBidCheck_spec_witness :
    kvGet ((atomicBidCheck ⟨[], []⟩ "a" "i" 5 "u").2).bids (bidKey "a" "i") = some 5 ∧
    kvGet ((atomicBidCheck ⟨[], []⟩ "a" "i" 5 "u").2).bidders (bidderKey "a" "i")
      = some "u" :=
  (atomicBidCheck_spec ⟨[], []⟩ "a" "i" 5 "u").2.1 (by rfl)

theorem currentItem_lt {s : AuctionState} {item : AuctionItem}
    (h : s.currentItem = some item) : s.currentItemIndex < s.items.length :=
  (List.getElem?_eq_some.mp h).1

theorem currentItem_set {s : AuctionState} {item : AuctionItem} (v : AuctionItem)
    (h : s.currentItem = some item) :
    (s.items.set s.currentItemIndex v)[s.currentItemIndex]? = some v :=
  List.getElem?_set_eq_of_lt v (currentItem_lt h)

/-! ## C5: the engine's `placeBid` -/

/-- C5: `placeBid` rejects with the not-live reason when the auction status is
not LIVE; rejects with the no-live-item reason when the current item is absent
or not LIVE; rejects with the bid-too-low reason when `amount ≤` the current
item's `highestBid`; and otherwise sets the current item's
`(highestBid, highestBidderId)` to `(amount, userId)` and accepts. -/
theorem engine_placeBid_spec (s : AuctionState) (u : String) (a : Int) :
    (s.status ≠ .LIVE →
      placeBid s u a =
        (.bidRejected ("Auction is not live (status: " ++ statusText s.status ++ ")"), s)) ∧
    (s.status = .LIVE → s.currentItem = none →
      placeBid s u a = (.bidRejected "No item currently being auctioned", s)) ∧
    (∀ item, s.status = .LIVE → s.currentItem = some item → item.status ≠ .LIVE →
      placeBid s u a = (.bidRejected "No item currently being auctioned", s)) ∧
    (∀ item, s.status = .LIVE → s.currentItem = some item → item.status = .LIVE →
      a ≤ item.highestBid →
      placeBid s u a =
        (.bidRejected ("Bid must be higher than current highest ("
          ++ toString item.highestBid ++ ")"), s)) ∧
    (∀ item, s.status = .LIVE → s.currentItem = some item → item.status = .LIVE →
      item.highestBid < a →
      (placeBid s u a).1 = .accepted ∧
      (placeBid s u a).2.currentItem =
        some { item with highestBid := a, highestBidderId := some u } ∧
      (placeBid s u a).2 =
        { s with items := s.items.set s.currentItemIndex
                            { item with highestBid := a, highestBidderId := some u } }) := by
  refine ⟨?_, ?_, ?_, ?_, ?_⟩
  · intro hs
    simp [placeBid, hs]
  · intro hs hc
    simp [placeBid, hs, hc]
  · intro item hs hc hitem
    simp [placeBid, hs, hc, hitem]
  · intro item hs hc hitem hle
    simp [placeBid, hs, hc, hitem, hle]
  · intro item hs hc hitem hlt
    have hc' : s.items[s.currentItemIndex]? = some item := hc
    have hnle : ¬a ≤ item.highestBid := by omega
    refine ⟨?_, ?_, ?_⟩ <;>
      simp [placeBid, hs, hc', hitem, hnle, AuctionState.currentItem,
        List.getElem?_set_eq_of_lt, currentItem_lt hc]

/-- Witness for C5: on a freshly started one-item auction at price 100, a bid
of 150 is accepted and recorded on the current item. -/
theorem engine_placeBid_spec_witness :
    (placeBid sample1 "u" 150).1 = .accepted ∧
    (placeBid sample1 "u" 150).2.currentItem = some sampleItem2 := by
  have h := (engine_placeBid_spec sample1 "u" 150).2.2.2.2 sampleItem1
    (by decide) (by decide) (by decide) (by decide)
  exact ⟨h.1, h.2.1⟩

/-! ## C6: the engine's `endCurrentItem` -/

/-- C6: `endCurrentItem` fails unless the auction is LIVE and the current item
is LIVE; on success the current item becomes SOLD exactly when
`highestBidderId ≠ null` and `highestBid > startingPrice` (else UNSOLD), and
the returned record carries the item's id, its `highestBidderId`, its
`highestBid`, and whether the SOLD condition held. -/
theorem engine_endCurrentItem_spec (s : AuctionState) :
    (s.status ≠ .LIVE →
      endCurrentItem s =
        (.endItemFailed ("Auction is not live (status: " ++ statusText s.status ++ ")"), s)) ∧
    (s.status = .LIVE → s.currentItem = none →
      endCurrentItem s = (.endItemFailed "No item currently live", s)) ∧
    (∀ item, s.status = .LIVE → s.currentItem = some item → item.status ≠ .LIVE →
      endCurrentItem s = (.endItemFailed "No item currently live", s)) ∧
    (∀ item, s.status = .LIVE → s.currentItem = some item → item.status = .LIVE →
      ∃ hadBids : Bool,
        (hadBids = true ↔ item.highestBidderId ≠ none
          ∧ item.highestBid > item.startingPrice) ∧
        (endCurrentItem s).1 =
          .itemEnded item.id item.highestBidderId item.highestBid hadBids ∧
        (endCurrentItem s).2.currentItem =
          some { item with status := if hadBids then .SOLD else .UNSOLD } ∧
        (endCurrentItem s).2 =
          { s with items := s.items.set s.currentItemIndex
                              { item with status := if hadBids then .SOLD else .UNSOLD } }) := by
  refine ⟨?_, ?_, ?_, ?_⟩
  · intro hs
    simp [endCurrentItem, hs]
  · intro hs hc
    simp [endCurrentItem, hs, hc]
  · intro item hs hc hitem
    simp [endCurrentItem, hs, hc, hitem]
  · intro item hs hc hitem
    have hc' : s.items[s.currentItemIndex]? = some item := hc
    refine ⟨item.highestBidderId.isSome && decide (item.highestBid > item.startingPrice),
      ?_, ?_, ?_, ?_⟩ <;>
      simp [endCurrentItem, hs, hc', hitem, AuctionState.currentItem,
        List.getElem?_set_eq_of_lt, currentItem_lt hc,
        Option.isSome_iff_ne_none, and_comm]

/-- Witness for C6: ending the current item after an accepted 150 bid on a
100-starting item reports it SOLD to that bidder at 150. -/
theorem engine_endCurrentItem_spec_witness :
    (endCurrentItem sample2).1 = .itemEnded "a-item-0" (some "u") 150 true := by
  obtain ⟨hadBids, hiff, hres, -, -⟩ :=
    (engine_endCurrentItem_spec sample2).2.2.2 sampleItem2 (by decide) (by decide) (by decide)
  have hb : hadBids = true := hiff.mpr (by decide)
  rw [hres, hb]
  rfl

/-! ## C10: engine operations are atomic on failure -/

/-- C10: whenever an engine operation returns a failure result, the engine
state after the call is identical to the state before the call. -/
theorem engine_failure_atomic (s : AuctionState) (u : String) (a : Int) :
    (∀ reason, (startAuction s).1 = .startFailed reason → (startAuction s).2 = s) ∧
    (∀ reason, (placeBid s u a).1 = .bidRejected reason → (placeBid s u a).2 = s) ∧
    (∀ reason, (endCurrentItem s).1 = .endItemFailed reason → (endCurrentItem s).2 = s) ∧
    (∀ reason, (advanceToNextItem s).1 = .advanceFailed reason →
      (advanceToNextItem s).2 = s) ∧
    (∀ reason, (extendCurrentItem s).1 = .extendFailed reason →
      (extendCurrentItem s).2 = s) ∧
    (∀ reason, (endAuction s).1 = .endAuctionFailed reason → (endAuction s).2 = s) := by
  refine ⟨?_, ?_, ?_, ?_, ?_, ?_⟩
  · intro reason hr
    by_cases hs : s.status = .CREATED
    · by_cases hlen : s.items.length = 0
      · simp [startAuction, hs, hlen]
      · simp [startAuction, hs, hlen] at hr
    · simp [startAuction, hs]
  · intro reason hr
    by_cases hs : s.status = .LIVE
    · cases hc : s.currentItem with
      | none => simp [placeBid, hs, hc]
      | some item =>
        by_cases hitem : item.status = .LIVE
        · by_cases hle : a ≤ item.highestBid
          · simp [placeBid, hs, hc, hitem, hle]
          · simp [placeBid, hs, hc, hitem, hle] at hr
        · simp [placeBid, hs, hc, hitem]
    · simp [placeBid, hs]
  · intro reason hr
    by_cases hs : s.status = .LIVE
    · cases hc : s.currentItem with
      | none => simp [endCurrentItem, hs, hc]
      | some item =>
        by_cases hitem : item.status = .LIVE
        · simp [endCurrentItem, hs, hc, hitem] at hr
        · simp [endCurrentItem, hs, hc, hitem]
    · simp [endCurrentItem, hs]
  · intro reason hr
    by_cases hs : s.status = .LIVE
    · by_cases hnext : s.currentItemIndex + 1 ≥ s.items.length
      · simp [advanceToNextItem, hs, hnext] at hr
      · simp [advanceToNextItem, hs, hnext] at hr
    · simp [advanceToNextItem, hs]
  · intro reason hr
    by_cases hs : s.status = .LIVE
    · cases hc : s.currentItem with
      | none => simp [extendCurrentItem, hs, hc]
      | some item =>
        by_cases hitem : item.status = .LIVE
        · by_cases hext : item.extended
          · simp [extendCurrentItem, hs, hc, hitem, hext]
          · simp [extendCurrentItem, hs, hc, hitem, hext] at hr
        · simp [extendCurrentItem, hs, hc, hitem]
    · simp [extendCurrentItem, hs]
  · intro reason hr
    by_cases hs : s.status = .ENDED <;> simp [endAuction, hs] at hr

/-- Witness for C10: a bid on an ENDED auction fails and leaves the state
untouched. -/
theorem engine_failure_atomic_witness :
    (placeBid sample3 "v" 500).2 = sample3 :=
  (engine_failure_atomic sample3 "v" 500).2.1
    "Auction is not live (status: ENDED)" (by decide)

/-! ## C4: `endAuction` summaries -/

/-- Counterexample to C4 as stated: on a one-item auction where a 150 bid was
accepted and `endAuction` is called while the item is still LIVE, the first
call returns a null winner, leaves the item's status LIVE, and the second
call (already ENDED) returns winner `"u"` for that non-SOLD item — so the
summary does not list a non-null winner exactly for SOLD items, and two
consecutive calls return different results lists. -/
theorem endAuction_c4_counterexample :
    (endAuction sample2).1 =
      .auctionEnded [{ itemId := "a-item-0", winnerId := none, finalPrice := 150 }] ∧
    sample3.status = .ENDED ∧
    sample3.items.map AuctionItem.status = [.LIVE] ∧
    (endAuction sample3).1 =
      .auctionEnded [{ itemId := "a-item-0", winnerId := some "u", finalPrice := 150 }] := by
  decide

/-- C4 amended: `endAuction` always succeeds and is idempotent on the state
(status ends up ENDED and a second call does not change it). When the
auction was not yet ENDED, the summary's winner is the item's
`highestBidderId` for SOLD items and null otherwise; when the auction was
already ENDED, the summary's winner is the item's `highestBidderId`
regardless of the item's status, so the two calls' results lists agree only
when every non-SOLD item has a null `highestBidderId`. -/
theorem endAuction_amended_spec (s : AuctionState) :
    (s.status = .ENDED →
      endAuction s = (.auctionEnded (s.items.map (fun i =>
        { itemId := i.id, winnerId := i.highestBidderId, finalPrice := i.highestBid })), s)) ∧
    (s.status ≠ .ENDED →
      (endAuction s).1 = .auctionEnded (s.items.map (fun i =>
        { itemId := i.id, winnerId := if i.status = .SOLD then i.highestBidderId else none,
          finalPrice := i.highestBid })) ∧
      (endAuction s).2 = { s with status := .ENDED }) ∧
    ((endAuction s).2.status = .ENDED) ∧
    ((endAuction (endAuction s).2).2 = (endAuction s).2) := by
  by_cases hs : s.status = .ENDED <;> simp [endAuction, hs]

/-- Witness for C4 (amended) at a concrete input: the second call on the
forced-ENDED one-item auction returns the bidder as winner and preserves the
state. -/
theorem endAuction_amended_spec_witness :
    endAuction sample3 = (.auctionEnded [{ itemId := "a-item-0", winnerId := some "u",
                                           finalPrice := 150 }], sample3) :=
  ((endAuction_amended_spec sample3).1 (by decide)).trans (by decide)

/-! ## C9: snapshot round-trip -/

theorem itemOfJson_itemToJson (it : AuctionItem) : itemOfJson (itemToJson it) = some it := by
  obtain ⟨id, name, sp, ds, eds, st, hb, hbid, ext⟩ := it
  cases st <;> cases hbid <;> rfl

theorem decodeItems_map (l : List AuctionItem) : decodeItems (l.map itemToJson) = some l := by
  induction l with
  | nil => rfl
  | cons it rest ih => simp [decodeItems, itemOfJson_itemToJson, ih]

theorem stateOfJson_stateToJson (s : AuctionState) : stateOfJson (stateToJson s) = some s := by
  obtain ⟨id, sellerId, st, items, idx, mds⟩ := s
  cases st <;>
    simp [stateToJson, stateOfJson, Json.getField, kvGet, jsonToStr, jsonToNum,
      parseAuctionStatus, decodeItems_map, statusText]

/-- C9: the engine's `getState` snapshot (the `JSON.parse(JSON.stringify(…))`
deep copy) equals the engine state, and `setState` of that snapshot restores
a state identical to the original: the snapshot round-trip is the
identity. -/
theorem engine_snapshot_roundtrip (s : AuctionState) :
    engineGetState s = some s ∧
    (engineGetState s).bind (engineSetState s) = some s := by
  have h := stateOfJson_stateToJson s
  refine ⟨h, ?_⟩
  unfold engineGetState
  rw [h]
  exact h

/-! ## C1: extending adds to the remaining time -/

/-- C1: on a LIVE auction whose current item is LIVE, not yet extended, and
has a running timer with end time `E`, the seller's `extendItem` at time
`now` succeeds and arms the new timer for
`now + max(0, E − now) + extraDurationSec·1000` — it never resets the timer
to the item's full duration. -/
theorem extendItem_adds_remaining (entry : ServiceEntry) (item : AuctionItem) (E now : Int)
    (hlive : entry.engine.status = .LIVE)
    (hcur : entry.engine.currentItem = some item)
    (hitem : item.status = .LIVE)
    (hnotext : item.extended = false)
    (htimer : entry.timer.itemTimer = true)
    (hend : entry.timer.itemEndTimeMs = some E) :
    (extendItem entry entry.engine.sellerId now).1 = .extendedOk ∧
    (extendItem entry entry.engine.sellerId now).2.timer.itemEndTimeMs =
      some (now + (max 0 (E - now) + item.extraDurationSec * 1000)) := by
  have hc' : entry.engine.items[entry.engine.currentItemIndex]? = some item := hcur
  have hc1 : (entry.engine.items.set entry.engine.currentItemIndex
      { item with extended := true })[entry.engine.currentItemIndex]? =
      some { item with extended := true } :=
    List.getElem?_set_eq_of_lt _ (currentItem_lt hcur)
  simp only [hitem] at hc1
  constructor <;>
    simp [extendItem, extendCurrentItem, scheduleItemExpiry, AuctionState.currentItem,
      hlive, hc', hitem, hnotext, htimer, hend, hc1]

/-- Witness for C1 (scenario S5 of the spec): duration 60 s, extension at
t = 45 s with 15 s extra time gives end time 75 s, not 45 + 60 + 15. -/
theorem extendItem_adds_remaining_witness :
    (extendItem sampleEntry "s" 45000).1 = .extendedOk ∧
    (extendItem sampleEntry "s" 45000).2.timer.itemEndTimeMs = some 75000 := by
  have h := extendItem_adds_remaining sampleEntry sampleItem1 60000 45000
    (by decide) (by decide) (by decide) (by decide) (by decide) (by decide)
  exact ⟨h.1, h.2.trans (by decide)⟩

/-! ## C7: one LIVE item while the auction is LIVE -/

theorem liveInvariant_init (aid : String) (input : CreateAuctionInput) :
    liveInvariant (mkEngineState aid input) := by
  constructor
  · intro _
    refine ⟨rfl, ?_⟩
    intro j it hj
    simp only [mkEngineState, List.getElem?_map] at hj
    cases he : input.items.enum[j]? with
    | none => rw [he] at hj; cases hj
    | some p =>
      rw [he] at hj
      cases hj
      rfl
  · intro h
    have h' : AuctionStatus.CREATED = AuctionStatus.LIVE := h
    cases h'

theorem liveInvariant_set_current (s : AuctionState) (item v : AuctionItem)
    (hinv : liveInvariant s) (hs : s.status = .LIVE)
    (hc : s.currentItem = some item)
    (hstatus : v.status = item.status) :
    liveInvariant { s with items := s.items.set s.currentItemIndex v } := by
  have hc' : s.items[s.currentItemIndex]? = some item := hc
  obtain ⟨hlt, hchar⟩ := hinv.2 hs
  constructor
  · intro h
    have h' : s.status = .CREATED := h
    rw [hs] at h'
    cases h'
  · intro _
    refine ⟨by simpa using hlt, ?_⟩
    intro j it hj
    simp only at hj ⊢
    by_cases hj0 : j = s.currentItemIndex
    · subst hj0
      rw [List.getElem?_set_eq_of_lt _ hlt] at hj
      cases hj
      rw [hstatus]
      exact hchar _ _ hc'
    · rw [List.getElem?_set_ne (fun hh => hj0 hh.symm)] at hj
      exact hchar j it hj

theorem liveInvariant_start (s : AuctionState) (hinv : liveInvariant s) :
    liveInvariant (startAuction s).2 := by
  by_cases hs : s.status = .CREATED
  · by_cases hlen : s.items.length = 0
    · have hstep : (startAuction s).2 = s := by
        simp [startAuction, hs, hlen]
      rw [hstep]
      exact hinv
    · obtain ⟨hidx0, hpend⟩ := hinv.1 hs
      have hlt : 0 < s.items.length := Nat.pos_of_ne_zero hlen
      cases h0 : s.items[0]? with
      | none =>
        have h1 := List.getElem?_eq_getElem hlt
        rw [h0] at h1
        cases h1
      | some item0 =>
        have hstep : (startAuction s).2 =
            { s with status := .LIVE, items := s.items.set 0 (itemGoLive item0) } := by
          simp [startAuction, hs, hlen, setItemAt, h0, itemGoLive]
        rw [hstep]
        constructor
        · intro h
          have h' : AuctionStatus.LIVE = AuctionStatus.CREATED := h
          cases h'
        · intro _
          refine ⟨by simpa [hidx0] using hlt, ?_⟩
          intro j it hj
          simp only at hj ⊢
          by_cases hj0 : j = 0
          · subst hj0
            rw [List.getElem?_set_eq_of_lt _ hlt] at hj
            cases hj
            simp [itemGoLive, hidx0]
          · rw [List.getElem?_set_ne (fun hh => hj0 hh.symm)] at hj
            have hp := hpend j it hj
            simp [hp, hidx0, hj0]
  · have hstep : (startAuction s).2 = s := by
      simp [startAuction, hs]
    rw [hstep]
    exact hinv

theorem liveInvariant_bid (s : AuctionState) (u : String) (a : Int)
    (hinv : liveInvariant s) : liveInvariant (placeBid s u a).2 := by
  by_cases hs : s.status = .LIVE
  · cases hc : s.currentItem with
    | none =>
      have hstep : (placeBid s u a).2 = s := by simp [placeBid, hs, hc]
      rw [hstep]; exact hinv
    | some item =>
      by_cases hitem : item.status = .LIVE
      · by_cases hle : a ≤ item.highestBid
        · have hstep : (placeBid s u a).2 = s := by simp [placeBid, hs, hc, hitem, hle]
          rw [hstep]; exact hinv
        · have hstep : (placeBid s u a).2 =
              { s with items := s.items.set s.currentItemIndex (itemAfterBid item u a) } := by
            simp [placeBid, hs, hc, hitem, hle, itemAfterBid]
          rw [hstep]
          exact liveInvariant_set_current s item _ hinv hs hc rfl
      · have hstep : (placeBid s u a).2 = s := by simp [placeBid, hs, hc, hitem]
        rw [hstep]; exact hinv
  · have hstep : (placeBid s u a).2 = s := by simp [placeBid, hs]
    rw [hstep]; exact hinv

theorem liveInvariant_extend (s : AuctionState) (hinv : liveInvariant s) :
    liveInvariant (extendCurrentItem s).2 := by
  by_cases hs : s.status = .LIVE
  · cases hc : s.currentItem with
    | none =>
      have hstep : (extendCurrentItem s).2 = s := by simp [extendCurrentItem, hs, hc]
      rw [hstep]; exact hinv
    | some item =>
      by_cases hitem : item.status = .LIVE
      · by_cases hext : item.extended
        · have hstep : (extendCurrentItem s).2 = s := by
            simp [extendCurrentItem, hs, hc, hitem, hext]
          rw [hstep]; exact hinv
        · have hstep : (extendCurrentItem s).2 =
              { s with items := s.items.set s.currentItemIndex { item with extended := true } } := by
            simp [extendCurrentItem, hs, hc, hitem, hext]
          rw [hstep]
          exact liveInvariant_set_current s item _ hinv hs hc rfl
      · have hstep : (extendCurrentItem s).2 = s := by simp [extendCurrentItem, hs, hc, hitem]
        rw [hstep]; exact hinv
  · have hstep : (extendCurrentItem s).2 = s := by simp [extendCurrentItem, hs]
    rw [hstep]; exact hinv

theorem liveInvariant_expire (s : AuctionState) (hinv : liveInvariant s) :
    liveInvariant (expireStep s) := by
  by_cases hs : s.status = .LIVE
  · obtain ⟨hlt, hchar⟩ := hinv.2 hs
    cases hco : s.currentItem with
    | none =>
      have h1 := List.getElem?_eq_getElem hlt
      have h2 : s.items[s.currentItemIndex]? = none := hco
      rw [h2] at h1
      cases h1
    | some item =>
      have hco' : s.items[s.currentItemIndex]? = some item := hco
      have hilive : item.status = .LIVE := (hchar _ _ hco').mpr rfl
      by_cases hnext : s.currentItemIndex + 1 ≥ s.items.length
      · have hstep : expireStep s =
            { s with status := .ENDED, items := s.items.set s.currentItemIndex (itemClosed item) } := by
          simp [expireStep, endCurrentItem, advanceToNextItem, endAuction, hs, hco, hilive,
            itemClosed, hnext]
        rw [hstep]
        constructor
        · intro h
          have h' : AuctionStatus.ENDED = AuctionStatus.CREATED := h
          cases h'
        · intro h
          have h' : AuctionStatus.ENDED = AuctionStatus.LIVE := h
          cases h'
      · push_neg at hnext
        cases hn2 : s.items[s.currentItemIndex + 1]? with
        | none =>
          have h1 := List.getElem?_eq_getElem hnext
          rw [hn2] at h1
          cases h1
        | some next =>
          have hn : (s.items.set s.currentItemIndex
              (itemClosed item))[s.currentItemIndex + 1]? = some next := by
            rw [List.getElem?_set_ne (by omega)]
            exact hn2
          have hstep : expireStep s =
              { s with currentItemIndex := s.currentItemIndex + 1, items := (s.items.set s.currentItemIndex (itemClosed item)).set (s.currentItemIndex + 1) (itemGoLive next) } := by
            have hge : ¬s.currentItemIndex + 1 ≥ s.items.length := by omega
            simp [expireStep, endCurrentItem, advanceToNextItem, setItemAt, hs, hco, hilive,
              itemClosed, itemGoLive, hge, hn, hn2]
          rw [hstep]
          constructor
          · intro h
            have h' : s.status = AuctionStatus.CREATED := h
            rw [hs] at h'
            cases h'
          · intro _
            refine ⟨by simpa using hnext, ?_⟩
            intro j it hj
            simp only at hj ⊢
            by_cases hj1 : j = s.currentItemIndex + 1
            · subst hj1
              rw [List.getElem?_set_eq_of_lt _ (by simpa using hnext)] at hj
              cases hj
              simp [itemGoLive]
            · rw [List.getElem?_set_ne (fun hh => hj1 hh.symm)] at hj
              by_cases hj0 : j = s.currentItemIndex
              · subst hj0
                rw [List.getElem?_set_eq_of_lt _ hlt] at hj
                cases hj
                constructor
                · intro hfalse
                  simp only [itemClosed] at hfalse
                  by_cases hb : item.highestBidderId.isSome
                      && decide (item.highestBid > item.startingPrice) <;>
                    simp [hb] at hfalse
                · omega
              · rw [List.getElem?_set_ne (fun hh => hj0 hh.symm)] at hj
                have hch := hchar j it hj
                constructor
                · intro hl
                  exact absurd (hch.mp hl) hj0
                · omega
  · have hstep : expireStep s = s := by
      simp [expireStep, endCurrentItem, hs]
    rw [hstep]
    exact hinv

theorem liveInvariant_reachable {aid : String} {input : CreateAuctionInput}
    {s : AuctionState} (h : CoordReachable aid input s) : liveInvariant s := by
  induction h with
  | init => exact liveInvariant_init aid input
  | start _ ih => exact liveInvariant_start _ ih
  | bid u a _ ih => exact liveInvariant_bid _ u a ih
  | extend _ ih => exact liveInvariant_extend _ ih
  | expire _ ih => exact liveInvariant_expire _ ih

/-- C7 (amended): in every engine state reachable from a freshly created
auction by the coordinator-level operation sequences of the service
(`startAuction`, `placeBid`, `extendCurrentItem`, and the timer-expiry step
`endCurrentItem`-then-`advanceToNextItem`-then-`endAuction`), whenever the
auction status is LIVE, exactly one item has status LIVE and it is the item
at `currentItemIndex`. Arbitrary interleavings of bare engine operations
violate this (`endCurrentItem` alone leaves a LIVE auction with zero LIVE
items). -/
theorem coordReachable_one_live_item (aid : String) (input : CreateAuctionInput)
    (s : AuctionState) (h : CoordReachable aid input s) (hs : s.status = .LIVE) :
    ∃ item, s.items[s.currentItemIndex]? = some item ∧ item.status = .LIVE ∧
      ∀ j : Nat, ∀ it : AuctionItem, s.items[j]? = some it → it.status = .LIVE →
        j = s.currentItemIndex := by
  obtain ⟨hlt, hchar⟩ := (liveInvariant_reachable h).2 hs
  refine ⟨s.items.get ⟨s.currentItemIndex, hlt⟩, List.getElem?_eq_getElem hlt, ?_, ?_⟩
  · exact (hchar _ _ (List.getElem?_eq_getElem hlt)).mpr rfl
  · intro j it hj hl
    exact (hchar j it hj).mp hl

/-- Counterexample to C7 as stated: `endCurrentItem` alone (a legal engine
operation sequence: create → startAuction → endCurrentItem) leaves the
auction LIVE with its only item UNSOLD, so no item is LIVE. -/
theorem c7_engine_ops_counterexample :
    ((endCurrentItem sample1).2).status = .LIVE ∧
    ((endCurrentItem sample1).2).items.map AuctionItem.status = [.UNSOLD] := by
  decide

/-- Witness for C7 (amended): the freshly started one-item auction is
coordinator-reachable and has its unique LIVE item at index 0. -/
theorem coordReachable_one_live_item_witness :
    ∃ item, sample1.items[sample1.currentItemIndex]? = some item ∧
      item.status = .LIVE ∧
      ∀ j : Nat, ∀ it : AuctionItem, sample1.items[j]? = some it →
        it.status = .LIVE → j = sample1.currentItemIndex :=
  coordReachable_one_live_item "a" sampleInput sample1
    (CoordReachable.start CoordReachable.init) (by decide)

/-! ## C8: persisted bids are strictly amount-monotone per item -/

theorem atomicBidCheck_false_eq {arb arb1 : ArbiterState} {aid iid : String} {amt : Int}
    {bidder : String} (h : atomicBidCheck arb aid iid amt bidder = (false, arb1)) :
    arb1 = arb := by
  unfold atomicBidCheck at h
  cases hg : kvGet arb.bids (bidKey aid iid) with
  | none => simp [hg] at h
  | some c =>
    by_cases hgt : amt > c
    · simp [hg, hgt] at h
    · simp [hg, hgt] at h
      exact h.symm

theorem atomicBidCheck_accept_facts {arb arb1 : ArbiterState} {aid iid : String} {amt : Int}
    {bidder : String} (h : atomicBidCheck arb aid iid amt bidder = (true, arb1)) :
    kvGet arb1.bids (bidKey aid iid) = some amt ∧
    (∀ v, kvGet arb.bids (bidKey aid iid) = some v → amt > v) ∧
    (∀ k2, k2 ≠ bidKey aid iid → kvGet arb1.bids k2 = kvGet arb.bids k2) := by
  cases hg : kvGet arb.bids (bidKey aid iid) with
  | none =>
    simp only [atomicBidCheck, hg] at h
    have h2 := congrArg Prod.snd h
    simp only at h2
    subst h2
    refine ⟨kvGet_set_self _ _ _, ?_, ?_⟩
    · intro v hv
      cases hv
    · intro k2 hk2
      exact kvGet_set_ne _ _ hk2
  | some cur =>
    by_cases hgt : amt > cur
    · simp only [atomicBidCheck, hg, if_pos hgt] at h
      have h2 := congrArg Prod.snd h
      simp only at h2
      subst h2
      refine ⟨kvGet_set_self _ _ _, ?_, ?_⟩
      · intro v hv
        cases hv
        exact hgt
      · intro k2 hk2
        exact kvGet_set_ne _ _ hk2
    · simp only [atomicBidCheck, hg, if_neg hgt] at h
      simp at h

theorem coordInv_of_eq {c c' : CoordState} (h : coordInv c) (ha : c'.arb = c.arb)
    (hb : c'.bids = c.bids) : coordInv c' := by
  unfold coordInv at h ⊢
  rw [ha, hb]
  exact h

theorem bidCore_cases (c : CoordState) (keys : Option (String × String)) (item : AuctionItem)
    (u : String) (a : Int) (aid : String) :
    ((bidCore c keys item u a aid).2.arb = c.arb ∧
      (bidCore c keys item u a aid).2.bids = c.bids) ∨
    (∃ arb1, atomicBidCheck c.arb aid item.id a u = (true, arb1) ∧
      (bidCore c keys item u a aid).2.arb = arb1 ∧
      (bidCore c keys item u a aid).2.bids =
        c.bids ++ [{ auctionId := aid, itemId := item.id, bidderId := u, amount := a }]) := by
  by_cases hle : a ≤ item.highestBid
  · left
    cases keys with
    | none => simp [bidCore, hle]
    | some kp =>
      obtain ⟨rk, pk⟩ := kp
      simp [bidCore, hle]
  · cases harb : atomicBidCheck c.arb aid item.id a u with
    | mk ok arb1 =>
      cases ok with
      | false =>
        left
        have he : arb1 = c.arb := atomicBidCheck_false_eq harb
        subst he
        cases keys with
        | none => simp [bidCore, hle, harb]
        | some kp =>
          obtain ⟨rk, pk⟩ := kp
          simp [bidCore, hle, harb]
      | true =>
        right
        refine ⟨arb1, rfl, ?_, ?_⟩ <;>
          cases keys with
          | none => simp [bidCore, hle, harb]
          | some kp =>
            obtain ⟨rk, pk⟩ := kp
            simp [bidCore, hle, harb]

theorem monotone_elem_iff (b1 b2 : PersistedBid) :
    ((!decide (b1.auctionId = b2.auctionId ∧ b1.itemId = b2.itemId))
      || decide (b1.amount < b2.amount)) = true ↔
    (b1.auctionId = b2.auctionId → b1.itemId = b2.itemId → b1.amount < b2.amount) := by
  by_cases hA : b1.auctionId = b2.auctionId <;> by_cases hB : b1.itemId = b2.itemId <;>
    simp [hA, hB]

theorem bidsMonotoneB_iff (l : List PersistedBid) :
    bidsMonotoneB l = true ↔
      l.Pairwise (fun b1 b2 =>
        b1.auctionId = b2.auctionId → b1.itemId = b2.itemId → b1.amount < b2.amount) := by
  induction l with
  | nil => simp [bidsMonotoneB]
  | cons b rest ih =>
    simp [bidsMonotoneB, List.all_eq_true, monotone_elem_iff, ih, List.pairwise_cons, and_comm]
    intro _
    constructor <;> intro hall x hx <;> have hh := hall x hx <;> tauto

theorem bidsMonotoneB_append (l : List PersistedBid) (b : PersistedBid) :
    bidsMonotoneB (l ++ [b]) = true ↔
      (bidsMonotoneB l = true ∧
        ∀ b1 ∈ l, b1.auctionId = b.auctionId → b1.itemId = b.itemId → b1.amount < b.amount) := by
  rw [bidsMonotoneB_iff, bidsMonotoneB_iff, List.pairwise_append]
  simp [List.pairwise_cons]

theorem bidCore_coordInv (c : CoordState) (keys : Option (String × String))
    (item : AuctionItem) (u : String) (a : Int) (aid : String) (h : coordInv c) :
    coordInv (bidCore c keys item u a aid).2 := by
  rcases bidCore_cases c keys item u a aid with ⟨ha, hb⟩ | ⟨arb1, harb, ha, hb⟩
  · exact coordInv_of_eq h ha hb
  · obtain ⟨hget, hgt, hother⟩ := atomicBidCheck_accept_facts harb
    constructor
    · intro b hbmem
      rw [hb] at hbmem
      rw [ha]
      rcases List.mem_append.mp hbmem with hold | hnew
      · have hcov := h.1 b hold
        unfold bidCoveredB at hcov ⊢
        cases hg : kvGet c.arb.bids (bidKey b.auctionId b.itemId) with
        | none => simp [hg] at hcov
        | some v =>
          simp [hg] at hcov
          by_cases hkey : bidKey b.auctionId b.itemId = bidKey aid item.id
          · rw [hkey] at hg ⊢
            rw [hget]
            have hlt := hgt v hg
            simp
            omega
          · rw [hother _ hkey, hg]
            simp
            exact hcov
      · have hbeq : b = { auctionId := aid, itemId := item.id, bidderId := u, amount := a } := by
          simpa using hnew
        subst hbeq
        unfold bidCoveredB
        simp [hget]
    · rw [hb]
      refine (bidsMonotoneB_append _ _).mpr ⟨h.2, ?_⟩
      intro b1 hb1 hauc hitm
      have hcov := h.1 b1 hb1
      unfold bidCoveredB at hcov
      cases hg : kvGet c.arb.bids (bidKey b1.auctionId b1.itemId) with
      | none => simp [hg] at hcov
      | some v =>
        simp [hg] at hcov
        have hkey : bidKey b1.auctionId b1.itemId = bidKey aid item.id := by
          rw [hauc, hitm]
        rw [hkey] at hg
        have hlt := hgt v hg
        show b1.amount < a
        omega

theorem svcPlaceBid_coordInv (c : CoordState) (u : String) (a : Int) (k : Option String)
    (h : coordInv c) : coordInv (svcPlaceBid c u a k).2 := by
  unfold svcPlaceBid
  by_cases hs : c.engine.status = .LIVE
  · cases hc : c.engine.currentItem with
    | none =>
      simp [hs, hc]
      exact h
    | some item =>
      by_cases hil : item.status = .LIVE
      · cases hk : normalizeIdemKey k with
        | none =>
          simp [hs, hc, hil, hk]
          exact bidCore_coordInv _ _ _ _ _ _ h
        | some nk =>
          cases hres : kvGet c.idemResults (bidIdemResultKey c.engine.id item.id u nk) with
          | some r =>
            simp [hs, hc, hil, hk, hres]
            exact h
          | none =>
            by_cases hpend :
                (kvGet c.idemPending (bidIdemPendingKey c.engine.id item.id u nk)).isSome
            · simp [hs, hc, hil, hk, hres, hpend]
              exact h
            · simp [hs, hc, hil, hk, hres, hpend]
              exact bidCore_coordInv _ _ _ _ _ _ (coordInv_of_eq h rfl rfl)
      · simp [hs, hc, hil]
        exact h
  · simp [hs]
    exact h

theorem runBids_coordInv (calls : List (String × Int × Option String)) (c : CoordState)
    (h : coordInv c) : coordInv (runBids c calls) := by
  induction calls generalizing c with
  | nil => exact h
  | cons p rest ih =>
    obtain ⟨u, a, k⟩ := p
    exact ih _ (svcPlaceBid_coordInv c u a k h)

/-- C8: for every sequence of `placeBid` calls processed by the coordinator
from a state whose persisted log is strictly amount-monotone per item and
covered by the arbiter (as holds when an item is seeded and the log is
empty), the persisted bid log stays strictly amount-monotone per item: each
persisted bid's amount is strictly greater than the amounts of all bids
previously persisted for the same item. -/
theorem persisted_bids_strictly_monotone (c : CoordState)
    (calls : List (String × Int × Option String)) (h : coordInv c) :
    (runBids c calls).bids.Pairwise (fun b1 b2 =>
      b1.auctionId = b2.auctionId → b1.itemId = b2.itemId → b1.amount < b2.amount) :=
  (bidsMonotoneB_iff _).mp (runBids_coordInv calls c h).2

/-- Witness for C8: on a freshly started, seeded one-item auction, the call
sequence bid 150, bid 120, bid 200 persists exactly the rows 150 and 200 (the
low bid is rejected), and the log is strictly monotone. -/
theorem persisted_bids_strictly_monotone_witness :
    coordInv sampleCoord ∧
    (runBids sampleCoord [("u", 150, none), ("v", 120, none), ("w", 200, none)]).bids =
      [{ auctionId := "a", itemId := "a-item-0", bidderId := "u", amount := 150 },
       { auctionId := "a", itemId := "a-item-0", bidderId := "w", amount := 200 }] ∧
    (runBids sampleCoord [("u", 150, none), ("v", 120, none), ("w", 200, none)]).bids.Pairwise
      (fun b1 b2 =>
        b1.auctionId = b2.auctionId → b1.itemId = b2.itemId → b1.amount < b2.amount) := by
  have hinv : coordInv sampleCoord := by
    constructor
    · intro b hb
      exact absurd hb (List.not_mem_nil b)
    · rfl
  exact ⟨hinv, by decide,
    persisted_bids_strictly_monotone sampleCoord
      [("u", 150, none), ("v", 120, none), ("w", 200, none)] hinv⟩

/-! ## C2: bid idempotency -/

theorem placeBid_state_facts (s : AuctionState) (u : String) (a : Int) :
    (placeBid s u a).2.status = s.status ∧ (placeBid s u a).2.id = s.id ∧
    ((placeBid s u a).2.currentItem = s.currentItem ∨
      (∃ item, s.currentItem = some item ∧
        (placeBid s u a).2.currentItem = some (itemAfterBid item u a))) := by
  by_cases hs : s.status = .LIVE
  · cases hc : s.currentItem with
    | none => simp [placeBid, hs, hc]
    | some item =>
      by_cases hil : item.status = .LIVE
      · by_cases hle : a ≤ item.highestBid
        · simp [placeBid, hs, hc, hil, hle]
        · have hstep : (placeBid s u a).2 =
              { s with items := s.items.set s.currentItemIndex (itemAfterBid item u a) } := by
            simp [placeBid, hs, hc, hil, hle, itemAfterBid]
          rw [hstep]
          exact ⟨rfl, rfl, Or.inr ⟨item, rfl, currentItem_set _ hc⟩⟩
      · simp [placeBid, hs, hc, hil]
  · simp [placeBid, hs]

theorem bidCore_keyed_facts (c : CoordState) (rk pk : String) (item : AuctionItem)
    (u : String) (a : Int) (aid : String) :
    kvGet (bidCore c (some (rk, pk)) item u a aid).2.idemResults rk =
      some (bidCore c (some (rk, pk)) item u a aid).1 ∧
    ((bidCore c (some (rk, pk)) item u a aid).2.engine = c.engine ∨
      (bidCore c (some (rk, pk)) item u a aid).2.engine = (placeBid c.engine u a).2) ∧
    ((bidCore c (some (rk, pk)) item u a aid).2.bids = c.bids ∨
      ∃ b, (bidCore c (some (rk, pk)) item u a aid).2.bids = c.bids ++ [b]) := by
  by_cases hle : a ≤ item.highestBid
  · simp [bidCore, hle, kvGet_set_self]
  · cases harb : atomicBidCheck c.arb aid item.id a u with
    | mk ok arb1 =>
      cases ok with
      | false => simp [bidCore, hle, harb, kvGet_set_self]
      | true => simp [bidCore, hle, harb, kvGet_set_self]

/-- C2: with a non-empty idempotency key, a repeated `placeBid` is a fixed
point — the second call returns the first call's outcome and leaves the
coordinator state unchanged, so N sequential invocations all return the
identical `BidResult` and at most one Bid row is persisted in total; and
whenever a stored outcome for the key exists, it is returned verbatim with
the whole state (arbiter included) untouched. -/
theorem svcPlaceBid_idempotency (c : CoordState) (u : String) (a : Int) (k : String)
    (hk : normalizeIdemKey (some k) ≠ none) :
    svcPlaceBid (svcPlaceBid c u a (some k)).2 u a (some k) = svcPlaceBid c u a (some k) ∧
    ((svcPlaceBid c u a (some k)).2.bids = c.bids ∨
      ∃ b, (svcPlaceBid c u a (some k)).2.bids = c.bids ++ [b]) ∧
    (∀ item nk r, c.engine.status = .LIVE → c.engine.currentItem = some item →
      item.status = .LIVE → normalizeIdemKey (some k) = some nk →
      kvGet c.idemResults (bidIdemResultKey c.engine.id item.id u nk) = some r →
      svcPlaceBid c u a (some k) = (r, c)) := by
  by_cases hs : c.engine.status = .LIVE
  · cases hc : c.engine.currentItem with
    | none =>
      have hstate : (svcPlaceBid c u a (some k)).2 = c := by simp [svcPlaceBid, hs, hc]
      refine ⟨?_, ?_, ?_⟩
      · rw [hstate]
      · rw [hstate]
        exact Or.inl rfl
      · intro item nk r h1' h2' h3' h4' h5'
        cases h2'
    | some item =>
      by_cases hil : item.status = .LIVE
      · cases hnk : normalizeIdemKey (some k) with
        | none => exact absurd hnk hk
        | some nk =>
          cases hres : kvGet c.idemResults (bidIdemResultKey c.engine.id item.id u nk) with
          | some r =>
            have h1 : svcPlaceBid c u a (some k) = (r, c) := by
              simp [svcPlaceBid, hs, hc, hil, hnk, hres]
            have hstate : (svcPlaceBid c u a (some k)).2 = c := by rw [h1]
            refine ⟨?_, ?_, ?_⟩
            · rw [hstate, h1]
            · rw [hstate]
              exact Or.inl rfl
            · intro item' nk' r' h1' h2' h3' h4' h5'
              cases h2'
              cases h4'
              rw [hres] at h5'
              cases h5'
              exact h1
          | none =>
            by_cases hpend :
                (kvGet c.idemPending (bidIdemPendingKey c.engine.id item.id u nk)).isSome
            · have h1 : svcPlaceBid c u a (some k) =
                  ({ accepted := false, reason := some "Duplicate bid in progress" }, c) := by
                simp [svcPlaceBid, hs, hc, hil, hnk, hres, hpend]
              have hstate : (svcPlaceBid c u a (some k)).2 = c := by rw [h1]
              refine ⟨?_, ?_, ?_⟩
              · rw [hstate, h1]
              · rw [hstate]
                exact Or.inl rfl
              · intro item' nk' r' h1' h2' h3' h4' h5'
                cases h2'
                cases h4'
                rw [hres] at h5'
                cases h5'
            · have h1 : svcPlaceBid c u a (some k) =
                  bidCore { c with idemPending := kvSet c.idemPending (bidIdemPendingKey c.engine.id item.id u nk) "1" } (some (bidIdemResultKey c.engine.id item.id u nk, bidIdemPendingKey c.engine.id item.id u nk)) item u a c.engine.id := by
                simp [svcPlaceBid, hs, hc, hil, hnk, hres, hpend]
              obtain ⟨f1, f2, f3⟩ := bidCore_keyed_facts
                { c with idemPending := kvSet c.idemPending (bidIdemPendingKey c.engine.id item.id u nk) "1" }
                (bidIdemResultKey c.engine.id item.id u nk)
                (bidIdemPendingKey c.engine.id item.id u nk) item u a c.engine.id
              refine ⟨?_, ?_, ?_⟩
              · rw [h1]
                have hs2 : (bidCore { c with idemPending := kvSet c.idemPending (bidIdemPendingKey c.engine.id item.id u nk) "1" } (some (bidIdemResultKey c.engine.id item.id u nk, bidIdemPendingKey c.engine.id item.id u nk)) item u a c.engine.id).2.engine.status = .LIVE := by
                  rcases f2 with hf | hf
                  · rw [hf]
                    exact hs
                  · rw [hf, (placeBid_state_facts c.engine u a).1]
                    exact hs
                have hid2 : (bidCore { c with idemPending := kvSet c.idemPending (bidIdemPendingKey c.engine.id item.id u nk) "1" } (some (bidIdemResultKey c.engine.id item.id u nk, bidIdemPendingKey c.engine.id item.id u nk)) item u a c.engine.id).2.engine.id = c.engine.id := by
                  rcases f2 with hf | hf
                  · rw [hf]
                  · rw [hf]
                    exact (placeBid_state_facts c.engine u a).2.1
                rcases f2 with hf | hf
                · have hc2 : (bidCore { c with idemPending := kvSet c.idemPending (bidIdemPendingKey c.engine.id item.id u nk) "1" } (some (bidIdemResultKey c.engine.id item.id u nk, bidIdemPendingKey c.engine.id item.id u nk)) item u a c.engine.id).2.engine.currentItem = some item := by
                    rw [hf]
                    exact hc
                  simp [svcPlaceBid, hs2, hc2, hil, hnk, hid2, f1]
                · rcases (placeBid_state_facts c.engine u a).2.2 with hcu | hcu0
                  · have hc2 : (bidCore { c with idemPending := kvSet c.idemPending (bidIdemPendingKey c.engine.id item.id u nk) "1" } (some (bidIdemResultKey c.engine.id item.id u nk, bidIdemPendingKey c.engine.id item.id u nk)) item u a c.engine.id).2.engine.currentItem = some item := by
                      rw [hf, hcu]
                      exact hc
                    simp [svcPlaceBid, hs2, hc2, hil, hnk, hid2, f1]
                  · obtain ⟨item0, hi0, hcu⟩ := hcu0
                    rw [hc] at hi0
                    cases hi0
                    have hc2 : (bidCore { c with idemPending := kvSet c.idemPending (bidIdemPendingKey c.engine.id item.id u nk) "1" } (some (bidIdemResultKey c.engine.id item.id u nk, bidIdemPendingKey c.engine.id item.id u nk)) item u a c.engine.id).2.engine.currentItem = some (itemAfterBid item u a) := by
                      rw [hf]
                      exact hcu
                    have hil2 : (itemAfterBid item u a).status = .LIVE := hil
                    have hid3 : (itemAfterBid item u a).id = item.id := rfl
                    simp [svcPlaceBid, hs2, hc2, hil, hil2, hnk, hid2, hid3, itemAfterBid, f1]
              · rw [h1]
                exact f3
              · intro item' nk' r' h1' h2' h3' h4' h5'
                cases h2'
                cases h4'
                rw [hres] at h5'
                cases h5'
      · have hstate : (svcPlaceBid c u a (some k)).2 = c := by simp [svcPlaceBid, hs, hc, hil]
        refine ⟨?_, ?_, ?_⟩
        · rw [hstate]
        · rw [hstate]
          exact Or.inl rfl
        · intro item' nk' r' h1' h2' h3' h4' h5'
          cases h2'
          exact absurd h3' hil
  · have hstate : (svcPlaceBid c u a (some k)).2 = c := by simp [svcPlaceBid, hs]
    refine ⟨?_, ?_, ?_⟩
    · rw [hstate]
    · rw [hstate]
      exact Or.inl rfl
    · intro item' nk' r' h1' h2' h3' h4' h5'
      exact absurd h1' hs

set_option maxRecDepth 4000 in
/-- Witness for C2: repeating an accepted 150 bid with key "k1" returns the
stored outcome and leaves the coordinator state unchanged. -/
theorem svcPlaceBid_idempotency_witness :
    svcPlaceBid (svcPlaceBid sampleCoord "u" 150 (some "k1")).2 "u" 150 (some "k1") =
      svcPlaceBid sampleCoord "u" 150 (some "k1") :=
  (svcPlaceBid_idempotency sampleCoord "u" 150 "k1" (by decide)).1

end LiveAuction
